import Mathlib

/-!
Shallow embedding of the KaTeX→MathJax conversion engine
(`convertKatexToMathJax` and its helper passes) over `List Char`.

Every definition mirrors the corresponding TypeScript function; JavaScript
regular-expression passes are embedded as explicit scanners with the same
left-to-right, leftmost-match, lazy/greedy semantics as the original
expressions.  Recursions that are not structural use an explicit fuel
argument; fuel is always instantiated with the length of the scanned list
plus one, which is enough because every step consumes at least one
character, and every fuel-exhaustion branch flushes the rest verbatim.

Brace characters inside string literals are written with the escapes
`\x7b` and `\x7d`.
-/

/-- The option record consumed by the engine (`ConvertOptions` in the source). -/
structure ConvertOptions where
  wrapMatrixEnvsInDisplayMath : Bool
  plainParensAsDelimiters : Bool
  plainBracketsAsDelimiters : Bool
  convertBareInlineLatex : Bool
  wrapBareMathSingleLines : Bool
deriving Repr, DecidableEq

/-- The documented defaults (`DEFAULT_SETTINGS`, without the host-side paste flag). -/
def defaultOpts : ConvertOptions :=
  { wrapMatrixEnvsInDisplayMath := true
    plainParensAsDelimiters := false
    plainBracketsAsDelimiters := false
    convertBareInlineLatex := false
    wrapBareMathSingleLines := false }

/-- JavaScript whitespace (the class `\s` and the set trimmed by `String.trim`). -/
def isJsWs (c : Char) : Bool :=
  c == ' ' || c == '\t' || c == '\n' || c == '\r' || c == '\x0b' || c == '\x0c' ||
  c == '\u00A0' || c == '\uFEFF'

/-- The class `[ \t]`. -/
def isSpaceTab (c : Char) : Bool :=
  c == ' ' || c == '\t'

/-- Line terminators excluded by the regex `.` (we model `\n` and `\r`). -/
def isNlChar (c : Char) : Bool :=
  c == '\n' || c == '\r'

/-- JavaScript regex word characters, the class `\w` used by `\b`. -/
def isWordChar (c : Char) : Bool :=
  c.isAlphanum || c == '_'

/-- `pat` occurs at the head of `s` (used for literal regex fragments). -/
def leadsWith : List Char → List Char → Bool
  | [], _ => true
  | _ :: _, [] => false
  | p :: ps, c :: cs => p == c && leadsWith ps cs

/-- JavaScript `String.prototype.trim`. -/
def jsTrim (s : List Char) : List Char :=
  ((s.dropWhile isJsWs).reverse.dropWhile isJsWs).reverse

/-- JavaScript `String.prototype.trimEnd`. -/
def jsTrimEnd (s : List Char) : List Char :=
  (s.reverse.dropWhile isJsWs).reverse

/-- `text.slice(a, b)` for `a ≤ b` (used by the display-math segmenter). -/
def sliceL (text : List Char) (a b : Nat) : List Char :=
  (text.drop a).take (b - a)

/-! ### Whole-input URL / Markdown-link short-circuit (`convertKatexToMathJax`, first lines) -/

/-- Strip a literal `http://` or `https://` prefix (the fragment `https?:\/\/`). -/
def httpPrefix (s : List Char) : Option (List Char) :=
  if leadsWith "https://".data s then some (s.drop 8)
  else if leadsWith "http://".data s then some (s.drop 7)
  else none

/-- The test `/^https?:\/\/\S+$/`. -/
def isRawUrl (s : List Char) : Bool :=
  match httpPrefix s with
  | some rest => !rest.isEmpty && rest.all (fun c => !isJsWs c)
  | none => false

/-- Helper for `/\[.*?\]\(.*?\)$/` after the opening bracket: some split
`A ++ "](" ++ B ++ ")"` exists with `A`, `B` free of line terminators and the
closing parenthesis at the very end. -/
def mdAfterBracket : List Char → Bool
  | [] => false
  | ']' :: '(' :: r =>
      (match r.getLast? with
       | some ')' => r.dropLast.all (fun c => !isNlChar c)
       | _ => false)
      || (!isNlChar ']' && mdAfterBracket ('(' :: r))
  | c :: r => !isNlChar c && mdAfterBracket r

/-- The test `/^\[.*?\]\(.*?\)$/`. -/
def isMarkdownLink (s : List Char) : Bool :=
  match s with
  | '[' :: rest => mdAfterBracket rest
  | _ => false

/-- Helper for the unanchored tail `\[.*?\]\(.*?\)` of the combined test:
somewhere ahead there is `](`, and after it a `)` with no line terminator
in between. -/
def combAfterParen : List Char → Bool
  | [] => false
  | ')' :: _ => true
  | c :: r => !isNlChar c && combAfterParen r

/-- Helper scanning for the `\[` of the combined test. -/
def combFindBracket : List Char → Bool
  | [] => false
  | ']' :: '(' :: r => combAfterParen r || (!isNlChar ']' && combFindBracket ('(' :: r))
  | c :: r => !isNlChar c && combFindBracket r

/-- The test `/^https?:\/\/[^\s\[]+\[.*?\]\(.*?\)/`. -/
def isCombined (s : List Char) : Bool :=
  match httpPrefix s with
  | some rest =>
      let body := rest.takeWhile (fun c => !isJsWs c && c != '[')
      let after := rest.drop body.length
      !body.isEmpty &&
        (match after with
         | '[' :: r => combFindBracket r
         | _ => false)
  | none => false

/-! ### Code-fence segmentation (`convertKatexToMathJax`, regex `/```[\s\S]*?```/g`) -/

/-- Find the first occurrence of ```` ``` ````; returns the characters before
it and the characters after it. -/
def findTicks : List Char → Option (List Char × List Char)
  | [] => none
  | s@(c :: r) =>
      if leadsWith "```".data s then some ([], s.drop 3)
      else (findTicks r).map (fun p => (c :: p.1, p.2))

/-- Emit a pending prose chunk unless it is empty. -/
def flushProse (l : List Char) : List (Bool × List Char) :=
  if l.isEmpty then [] else [(false, l)]

/-- Fueled scanner splitting a document into prose (`false`) and fenced-code
(`true`) chunks, mirroring the `while ((m = codeFenceRegex.exec(input)))` loop:
a fence opens at the leftmost ```` ``` ```` that has a closing ```` ``` ````
somewhere after it; an unclosed opener is ordinary text. -/
def cfGo : Nat → List Char → List Char → List (Bool × List Char)
  | 0, acc, s => flushProse (acc.reverse ++ s)
  | _ + 1, acc, [] => flushProse acc.reverse
  | f + 1, acc, s@(c :: r) =>
      if leadsWith "```".data s then
        match findTicks (s.drop 3) with
        | some (content, rest) =>
            flushProse acc.reverse ++
              (true, "```".data ++ content ++ "```".data) :: cfGo f [] rest
        | none => cfGo f (c :: acc) r
      else cfGo f (c :: acc) r

/-- Split by fenced code blocks (step 1 of `convertKatexToMathJax`). -/
def codeFenceSplit (s : List Char) : List (Bool × List Char) :=
  cfGo (s.length + 1) [] s

/-! ### URL guard inside prose (`processOutsideCode`, regex `/https?:\/\/[^\s)]+/g`) -/

/-- A character allowed inside an embedded URL: the class `[^\s)]`. -/
def isUrlChar (c : Char) : Bool :=
  !isJsWs c && c != ')'

/-- Try to match `https?:\/\/[^\s)]+` at the head of `s`; returns the whole
match and the rest. -/
def matchUrl (s : List Char) : Option (List Char × List Char) :=
  match httpPrefix s with
  | some rest =>
      let body := rest.takeWhile isUrlChar
      if body.isEmpty then none
      else some (s.take (s.length - rest.length) ++ body, rest.drop body.length)
  | none => none

/-- Fueled scanner splitting prose into plain (`false`) and URL (`true`) chunks. -/
def urlGo : Nat → List Char → List Char → List (Bool × List Char)
  | 0, acc, s => flushProse (acc.reverse ++ s)
  | _ + 1, acc, [] => flushProse acc.reverse
  | f + 1, acc, c :: r =>
      match matchUrl (c :: r) with
      | some (m, rest) => flushProse acc.reverse ++ (true, m) :: urlGo f [] rest
      | none => urlGo f (c :: acc) r

/-- Split a prose chunk around embedded URLs (`processOutsideCode`). -/
def urlSplit (s : List Char) : List (Bool × List Char) :=
  urlGo (s.length + 1) [] s

/-! ### Stage 1: `text.replace(/\\\((.*?)\\\)/g, (_m, p1) => `$${p1.trim()}$`)` -/

/-- Scan for the lazy close `\\\)`; `.` does not match line terminators, so a
line break aborts the match. -/
def findParenClose : List Char → Option (List Char × List Char)
  | [] => none
  | '\\' :: ')' :: r => some ([], r)
  | c :: r =>
      if isNlChar c then none
      else (findParenClose r).map (fun p => (c :: p.1, p.2))

/-- Fueled scanner for the `\( X \)` → `$trim(X)$` rewrite. -/
def rpGo : Nat → List Char → List Char
  | 0, s => s
  | _ + 1, [] => []
  | f + 1, '\\' :: '(' :: rest =>
      match findParenClose rest with
      | some (inner, rest') => '$' :: (jsTrim inner ++ '$' :: rpGo f rest')
      | none => '\\' :: rpGo f ('(' :: rest)
  | f + 1, c :: rest => c :: rpGo f rest

/-- Stage 1 of `processMath`. -/
def replaceParenMath (s : List Char) : List Char :=
  rpGo (s.length + 1) s

/-! ### Stage 2: `text.replace(/\\\[(.*?)\\\]/gs, ...)` (the `s` flag lets `.` cross lines) -/

/-- Scan for the lazy close `\\\]` (any character may intervene). -/
def findBracketClose : List Char → Option (List Char × List Char)
  | [] => none
  | '\\' :: ']' :: r => some ([], r)
  | c :: r => (findBracketClose r).map (fun p => (c :: p.1, p.2))

/-- Fueled scanner for the `\[ X \]` → `"\n$$\n" ++ trim(X) ++ "\n$$\n"` rewrite. -/
def rbGo : Nat → List Char → List Char
  | 0, s => s
  | _ + 1, [] => []
  | f + 1, '\\' :: '[' :: rest =>
      match findBracketClose rest with
      | some (inner, rest') =>
          '\n' :: '$' :: '$' :: '\n' :: (jsTrim inner ++ '\n' :: '$' :: '$' :: '\n' :: rbGo f rest')
      | none => '\\' :: rbGo f ('[' :: rest)
  | f + 1, c :: rest => c :: rbGo f rest

/-- Stage 2 of `processMath`. -/
def replaceBracketMath (s : List Char) : List Char :=
  rbGo (s.length + 1) s

/-! ### Stage 3: `/(^|\n)[ \t]*\[[ \t]*\n([\s\S]*?)\n[ \t]*\][ \t]*(?=\n|$)/g` -/

/-- Scan the lazy body for its close `\n[ \t]*\][ \t]*(?=\n|$)`: the first
newline followed by optional blanks, `]`, optional blanks and then another
newline or the end.  Returns the body and the rest (starting at the
unconsumed lookahead). -/
def findBodyClose : List Char → Option (List Char × List Char)
  | [] => none
  | c :: r =>
      if c == '\n' then
        let r1 := r.dropWhile isSpaceTab
        match r1 with
        | ']' :: r2 =>
            let r3 := r2.dropWhile isSpaceTab
            if r3.isEmpty || r3.headD ' ' == '\n' then some ([], r3)
            else (findBodyClose r).map (fun p => (c :: p.1, p.2))
        | _ => (findBodyClose r).map (fun p => (c :: p.1, p.2))
      else (findBodyClose r).map (fun p => (c :: p.1, p.2))

/-- Try to match `[ \t]*\[[ \t]*\n BODY close` right after a lead; returns the
trimmed replacement body and the rest. -/
def matchBracketLine (s : List Char) : Option (List Char × List Char) :=
  let s1 := s.dropWhile isSpaceTab
  match s1 with
  | '[' :: r =>
      let r1 := r.dropWhile isSpaceTab
      match r1 with
      | '\n' :: body => findBodyClose body
      | _ => none
  | _ => none

/-- Fueled scanner emitting the replacement `${lead}$$\n${body.trim()}\n$$`. -/
def rblGo : Nat → List Char → List Char
  | 0, s => s
  | _ + 1, [] => []
  | f + 1, '\n' :: rest =>
      match matchBracketLine rest with
      | some (body, rest') =>
          '\n' :: '$' :: '$' :: '\n' :: (jsTrim body ++ '\n' :: '$' :: '$' :: rblGo f rest')
      | none => '\n' :: rblGo f rest
  | f + 1, c :: rest => c :: rblGo f rest

/-- Stage 3 of `processMath` (the `^` alternative of the lead, then the scan). -/
def replaceBracketLines (s : List Char) : List Char :=
  match matchBracketLine s with
  | some (body, rest') =>
      '$' :: '$' :: '\n' :: (jsTrim body ++ '\n' :: '$' :: '$' :: rblGo (s.length + 1) rest')
  | none => rblGo (s.length + 1) s

/-! ### Stage 4: wrapping bare matrix/align environments -/

/-- The fixed environment alternation of the source regex. -/
def envNames : List (List Char) :=
  ["bmatrix".data, "pmatrix".data, "vmatrix".data, "Vmatrix".data, "matrix".data,
   "smallmatrix".data, "cases".data, "array".data, "align".data, "aligned".data]

/-- Parse `\begin\x7bENV\x7d` at the head; returns the environment name and the rest. -/
def parseEnvBegin (s : List Char) : Option (List Char × List Char) :=
  if leadsWith "\\begin\x7b".data s then
    let r := s.drop 7
    (envNames.find? (fun e => leadsWith (e ++ ['\x7d']) r)).map
      (fun e => (e, r.drop (e.length + 1)))
  else none

/-- Find the first occurrence of `pat`; returns the characters before it and
the characters after it. -/
def findSub (pat : List Char) : List Char → Option (List Char × List Char)
  | [] => none
  | s@(c :: r) =>
      if leadsWith pat s then some ([], s.drop pat.length)
      else (findSub pat r).map (fun p => (c :: p.1, p.2))

/-- Try to match `([ \t]*)\begin\x7bENV\x7d([\s\S]*?)\end\x7bENV\x7d` right after a
lead; returns indent, environment, body and the rest. -/
def matchEnvAt (s : List Char) : Option (List Char × List Char × List Char × List Char) :=
  let indent := s.takeWhile isSpaceTab
  let s1 := s.drop indent.length
  match parseEnvBegin s1 with
  | some (env, s2) =>
      (findSub ("\\end\x7b".data ++ env ++ ['\x7d']) s2).map
        (fun p => (indent, env, p.1, p.2))
  | none => none

/-- The replacement `$$\n${indent}\begin\x7bENV\x7d${body}\end\x7bENV\x7d\n$$` (without the lead). -/
def envReplacement (indent env body : List Char) : List Char :=
  '$' :: '$' :: '\n' :: (indent ++ "\\begin\x7b".data ++ env ++ '\x7d' ::
    (body ++ "\\end\x7b".data ++ env ++ '\x7d' :: '\n' :: '$' :: '$' :: []))

/-- Fueled scanner for the environment wrapper (lead `\n`). -/
def wmGo : Nat → List Char → List Char
  | 0, s => s
  | _ + 1, [] => []
  | f + 1, '\n' :: rest =>
      match matchEnvAt rest with
      | some (indent, env, body, rest') =>
          '\n' :: (envReplacement indent env body ++ wmGo f rest')
      | none => '\n' :: wmGo f rest
  | f + 1, c :: rest => c :: wmGo f rest

/-- Stage 4 of `processMath` (only under `wrapMatrixEnvsInDisplayMath`). -/
def wrapMatrixEnvs (s : List Char) : List Char :=
  match matchEnvAt s with
  | some (indent, env, body, rest') =>
      envReplacement indent env body ++ wmGo (s.length + 1) rest'
  | none => wmGo (s.length + 1) s

/-! ### Display-math segmentation (`segmentByDisplayMath`) -/

/-- One region produced by the display-math segmenter. -/
structure MathChunk where
  inside : Bool
  chunk : List Char
deriving Repr, DecidableEq

/-- Backward scan of `lineBoundsAt`: the index right after the previous line
terminator (`while (ls > 0 && text[ls-1] !== '\n' && text[ls-1] !== '\r') ls--`). -/
def lineStart (text : List Char) : Nat → Nat
  | 0 => 0
  | pos + 1 =>
      match text.get? pos with
      | some '\n' => pos + 1
      | some '\r' => pos + 1
      | _ => lineStart text pos

/-- Fueled forward scan of `lineBoundsAt` towards the next line terminator. -/
def lineEndGo (text : List Char) : Nat → Nat → Nat
  | 0, pos => pos
  | f + 1, pos =>
      match text.get? pos with
      | none => pos
      | some c => if isNlChar c then pos else lineEndGo text f (pos + 1)

/-- The index of the current line's terminator (or the text's length). -/
def lineEnd (text : List Char) (pos : Nat) : Nat :=
  lineEndGo text text.length pos

/-- `adv` of `lineBoundsAt`: the line end including its trailing newline(s). -/
def lineAdv (text : List Char) (pos : Nat) : Nat :=
  let le := lineEnd text pos
  match text.get? le, text.get? (le + 1) with
  | some '\r', some '\n' => le + 2
  | some '\r', _ => le + 1
  | some '\n', _ => le + 1
  | _, _ => le

/-- The test `/^\s*\$\$\s*$/` on a single line. -/
def isDelimLine (l : List Char) : Bool :=
  let l' := l.dropWhile isJsWs
  leadsWith "$$".data l' && (l'.drop 2).all isJsWs

/-- `isDelimLineAt` of the source: the whole line around `pos` is a `$$` line. -/
def isDelimLineAt (text : List Char) (pos : Nat) : Bool :=
  isDelimLine (sliceL text (lineStart text pos) (lineEnd text pos))

/-- The inner `while` searching for a same-line closing `$$`
(`while (j + 1 < text.length && !(text[j] === '$' && text[j+1] === '$')) j++`). -/
def findDDGo (text : List Char) : Nat → Nat → Option Nat
  | 0, _ => none
  | f + 1, j =>
      if j + 1 < text.length then
        if text.get? j = some '$' ∧ text.get? (j + 1) = some '$' then some j
        else findDDGo text f (j + 1)
      else none

/-- The state machine of `segmentByDisplayMath`: i/start pointers and the
`inside` flag, driven by delimiter-only lines and same-line `$$…$$` spans. -/
def segLoop (text : List Char) : Nat → Nat → Nat → Bool → List MathChunk
  | 0, _, start, inside =>
      if start < text.length then [⟨inside, sliceL text start text.length⟩] else []
  | f + 1, i, start, inside =>
      if text.length ≤ i then
        (if start < text.length then [⟨inside, sliceL text start text.length⟩] else [])
      else if isDelimLineAt text i then
        let adv := lineAdv text i
        (if start < i then [⟨inside, sliceL text start i⟩] else []) ++
          ⟨true, sliceL text i adv⟩ :: segLoop text f adv adv (!inside)
      else if text.get? i = some '$' ∧ text.get? (i + 1) = some '$' then
        (if start < i then [⟨inside, sliceL text start i⟩] else []) ++
          (match findDDGo text text.length (i + 2) with
           | none => [⟨inside, sliceL text i text.length⟩]
           | some j => ⟨true, sliceL text i (j + 2)⟩ :: segLoop text f (j + 2) (j + 2) inside)
      else segLoop text f (i + 1) start inside

/-- `segmentByDisplayMath` of the source. -/
def segmentByDisplayMath (text : List Char) : List MathChunk :=
  segLoop text (text.length + 1) 0 0 false

/-- `applyOutsideDisplay` of the source. -/
def applyOutsideDisplay (text : List Char) (transform : List Char → List Char) : List Char :=
  ((segmentByDisplayMath text).map (fun p => if p.inside then p.chunk else transform p.chunk)).flatten

/-! ### `wrapBareMathLines` and `wrapBareMathLinesOutside` -/

/-- Find the first same-line `$$…$$` span of the split regex `(\$\$[\s\S]*?\$\$)`. -/
def findDollars : List Char → Option (List Char × List Char)
  | [] => none
  | s@(c :: r) =>
      if leadsWith "$$".data s then some ([], s.drop 2)
      else (findDollars r).map (fun p => (c :: p.1, p.2))

/-- Fueled scanner for `text.split(/(\$\$[\s\S]*?\$\$)/g)`: separator chunks are
tagged `true`.  Empty outer pieces are dropped, which is harmless because the
per-piece transform maps the empty string to itself. -/
def ddGo : Nat → List Char → List Char → List (Bool × List Char)
  | 0, acc, s => flushProse (acc.reverse ++ s)
  | _ + 1, acc, [] => flushProse acc.reverse
  | f + 1, acc, s@(c :: r) =>
      if leadsWith "$$".data s then
        match findDollars (s.drop 2) with
        | some (content, rest) =>
            flushProse acc.reverse ++
              (true, "$$".data ++ content ++ "$$".data) :: ddGo f [] rest
        | none => ddGo f (c :: acc) r
      else ddGo f (c :: acc) r

/-- Split around complete `$$…$$` spans. -/
def ddSplit (s : List Char) : List (Bool × List Char) :=
  ddGo (s.length + 1) [] s

/-- `segment.split(/\r?\n/)`. -/
def splitRN : List Char → List (List Char)
  | [] => [[]]
  | '\r' :: '\n' :: r => [] :: splitRN r
  | '\n' :: r => [] :: splitRN r
  | c :: r =>
      match splitRN r with
      | l :: ls => (c :: l) :: ls
      | [] => [[c]]

/-- The helper `isHr`: `/^(\*{3,}|-{3,}|_{3,})$/`. -/
def isHr (s : List Char) : Bool :=
  3 ≤ s.length && (s.all (· == '*') || s.all (· == '-') || s.all (· == '_'))

/-- The helper `isAlreadyMathDelim`: trimmed line equals `$$`. -/
def isAlreadyMathDelim (s : List Char) : Bool :=
  jsTrim s == "$$".data

/-- Heading test `/^#{1,6}\s/`: one to six `#` followed by a whitespace char. -/
def isHeading (t : List Char) : Bool :=
  let hashes := t.takeWhile (· == '#')
  1 ≤ hashes.length && hashes.length ≤ 6 &&
    (match t.drop hashes.length with
     | c :: _ => isJsWs c
     | [] => false)

/-- Bullet test `/^[-*•]\s+/`. -/
def isBullet (t : List Char) : Bool :=
  match t with
  | c :: d :: _ => (c == '-' || c == '*' || c == '•') && isJsWs d
  | _ => false

/-- Count the matches of `/\b[A-Za-z]{2,}\b/g`: maximal alphabetic runs of
length at least two whose neighbours are not word characters. -/
def countWordsGo : Nat → Bool → List Char → Nat
  | 0, _, _ => 0
  | _ + 1, _, [] => 0
  | f + 1, prevWord, c :: r =>
      if c.isAlpha then
        let run := (c :: r).takeWhile Char.isAlpha
        let rest := (c :: r).drop run.length
        let hit := !prevWord && 2 ≤ run.length &&
          (match rest with
           | [] => true
           | d :: _ => !isWordChar d)
        (if hit then 1 else 0) + countWordsGo f true rest
      else countWordsGo f (isWordChar c) r

/-- Number of wordy words in a line. -/
def countWords (t : List Char) : Nat :=
  countWordsGo (t.length + 1) false t

/-- `/^\$.*\$$/` on a (newline-free) line. -/
def isInlineWrapped (t : List Char) : Bool :=
  match t with
  | '$' :: rest => 1 ≤ rest.length && rest.getLast? == some '$'
  | _ => false

/-- `/^\$\$[\s\S]*\$\$$/` on a line. -/
def isDisplayWrapped (t : List Char) : Bool :=
  leadsWith "$$".data t && 4 ≤ t.length && leadsWith "$$".data (t.drop (t.length - 2))

/-- The test `/\\[A-Za-z]+/`: a backslash followed by a letter, anywhere in
the line. -/
def hasBackslashCmd : List Char → Bool
  | [] => false
  | '\\' :: r =>
      (match r with
       | d :: _ => d.isAlpha
       | [] => false) || hasBackslashCmd r
  | _ :: r => hasBackslashCmd r

/-- The per-line classifier `isMathLine` of `wrapBareMathLines`. -/
def isMathLine (s : List Char) : Bool :=
  if s.any (· == '$') then false
  else
    let t := jsTrim s
    if t.isEmpty then false
    else if isHeading t then false
    else if isBullet t then false
    else if isHr t then false
    else if isInlineWrapped t || isDisplayWrapped t then false
    else
      let hasMathToken :=
        t.any (fun c => c == '=' || c == '^' || c == '_') ||
        hasBackslashCmd t ||
        t.any (fun c => c == '+' || c == '-' || c == '*' || c == '/')
      hasMathToken && countWords t ≤ 4

/-- The wrapping loop of `wrapBareMathLines`: each mathy line not adjacent to a
`$$` line becomes `$$`, the line (right-trimmed), `$$`. -/
def wrapLinesGo : Option (List Char) → List (List Char) → List (List Char)
  | _, [] => []
  | prev, l :: ls =>
      let prevIsDelim := match prev with
        | some p => isAlreadyMathDelim p
        | none => false
      let nextIsDelim := match ls with
        | n :: _ => isAlreadyMathDelim (jsTrim n)
        | [] => false
      if isMathLine l && !prevIsDelim && !nextIsDelim then
        "$$".data :: jsTrimEnd l :: "$$".data :: wrapLinesGo (some (jsTrim l)) ls
      else
        l :: wrapLinesGo (some (jsTrim l)) ls

/-- Join with `"\n"`. -/
def joinNl : List (List Char) → List Char
  | [] => []
  | [l] => l
  | l :: ls => l ++ '\n' :: joinNl ls

/-- `wrapBareMathLines` of the source. -/
def wrapBareMathLines (segment : List Char) : List Char :=
  joinNl (wrapLinesGo none (splitRN segment))

/-- `wrapBareMathLinesOutside` of the source: only pieces outside complete
`$$…$$` spans are processed. -/
def wrapBareMathLinesOutside (text : List Char) : List Char :=
  (((ddSplit text).map (fun p => if p.1 then p.2 else wrapBareMathLines p.2)).flatten)

/-! ### `trimEmptyLinesAroundBlockMath` -/

/-- Match the fragment `[ \t]*\n[ \t]*(?=\$\$)` (used after `^` or a consumed
`\n`); returns the unconsumed rest, which starts with `$$`. -/
def matchBlankThenDD (s : List Char) : Option (List Char) :=
  let s1 := s.dropWhile isSpaceTab
  match s1 with
  | '\n' :: r =>
      let r1 := r.dropWhile isSpaceTab
      if leadsWith "$$".data r1 then some r1 else none
  | _ => none

/-- Fueled scanner for `/(?:^|\n)[ \t]*\n[ \t]*(?=\$\$)/g → "\n"` (the `\n` lead). -/
def tbGo : Nat → List Char → List Char
  | 0, s => s
  | _ + 1, [] => []
  | f + 1, '\n' :: rest =>
      match matchBlankThenDD rest with
      | some r => '\n' :: tbGo f r
      | none => '\n' :: tbGo f rest
  | f + 1, c :: rest => c :: tbGo f rest

/-- The first replace of `trimEmptyLinesAroundBlockMath` (with its `^` alternative). -/
def trimBeforeDD (s : List Char) : List Char :=
  match matchBlankThenDD s with
  | some r => '\n' :: tbGo (s.length + 1) r
  | none => tbGo (s.length + 1) s

/-- Fueled scanner for `/(?<=\$\$)\n[ \t]*\n/g → "\n"`; `p`/`q` are the two
previously scanned characters of the original text (the lookbehind). -/
def taGo : Nat → Option Char → Option Char → List Char → List Char
  | 0, _, _, s => s
  | _ + 1, _, _, [] => []
  | f + 1, p, q, c :: rest =>
      if p = some '$' ∧ q = some '$' ∧ c = '\n' then
        let r1 := rest.dropWhile isSpaceTab
        match r1 with
        | '\n' :: r2 =>
            -- the match consumed `\n[ \t]*\n`; its last original character is '\n'
            '\n' :: taGo f (some '\n') (some '\n') r2
        | _ => c :: taGo f q (some c) rest
      else c :: taGo f q (some c) rest

/-- The second replace of `trimEmptyLinesAroundBlockMath`. -/
def trimAfterDD (s : List Char) : List Char :=
  taGo (s.length + 1) none none s

/-- `trimEmptyLinesAroundBlockMath` of the source. -/
def trimEmptyLinesAroundBlockMath (s : List Char) : List Char :=
  trimAfterDD (trimBeforeDD s)

/-! ### The LaTeX-likeness classifier (`isLatexLike`) and context guards -/

/-- Case-insensitive variant of `leadsWith` (pattern given in lower case). -/
def leadsWithCI : List Char → List Char → Bool
  | [], _ => true
  | _ :: _, [] => false
  | p :: ps, c :: cs => p == c.toLower && leadsWithCI ps cs

/-- No word character, or nothing, at a boundary position. -/
def noWordHead : List Char → Bool
  | [] => true
  | c :: _ => !isWordChar c

/-- A `\b name \b` occurrence of one of `names` somewhere in the text
(`prev` is the character before the scan position). -/
def wordTokenGo (names : List (List Char)) : Option Char → List Char → Bool
  | _, [] => false
  | prev, s@(c :: r) =>
      ((match prev with
        | none => true
        | some p => !isWordChar p) &&
        names.any (fun n => leadsWith n s && noWordHead (s.drop n.length))) ||
      wordTokenGo names (some c) r

/-- Case-insensitive variant of `wordTokenGo`. -/
def wordTokenGoCI (names : List (List Char)) : Option Char → List Char → Bool
  | _, [] => false
  | prev, s@(c :: r) =>
      ((match prev with
        | none => true
        | some p => !isWordChar p) &&
        names.any (fun n => leadsWithCI n s && noWordHead (s.drop n.length))) ||
      wordTokenGoCI names (some c) r

/-- The pattern `‖[^‖]+‖` occurs somewhere. -/
def hasNormBars : List Char → Bool
  | [] => false
  | c :: r =>
      (c == '‖' &&
        (match findSub ['‖'] r with
         | some (between, _) => !between.isEmpty
         | none => false)) ||
      hasNormBars r

/-- `\s*\x7b[A-Za-z0-9]+\x7d` right after a font-macro name. -/
def braceAlnumGroup (s : List Char) : Bool :=
  match s.dropWhile isJsWs with
  | '{' :: r =>
      let run := r.takeWhile Char.isAlphanum
      !run.isEmpty &&
        (match r.drop run.length with
         | '}' :: _ => true
         | _ => false)
  | _ => false

/-- `\s*\x7b[^\x7d]+\x7d` right after `\text` / `\operatorname`. -/
def braceAnyGroup (s : List Char) : Bool :=
  match s.dropWhile isJsWs with
  | '{' :: r =>
      let run := r.takeWhile (· != '}')
      !run.isEmpty &&
        (match r.drop run.length with
         | '}' :: _ => true
         | _ => false)
  | _ => false

/-- A backslash command from `names` followed by a brace group matching `grp`. -/
def backslashMacroGo (names : List (List Char)) (grp : List Char → Bool) : List Char → Bool
  | [] => false
  | '\\' :: r =>
      names.any (fun n => leadsWith n r && grp (r.drop n.length)) || backslashMacroGo names grp r
  | _ :: r => backslashMacroGo names grp r

/-- A backslash command from `names` followed by a word boundary (`\\(α|…)\b`). -/
def backslashWordGo (names : List (List Char)) : List Char → Bool
  | [] => false
  | '\\' :: r =>
      names.any (fun n => leadsWith n r && noWordHead (r.drop n.length)) || backslashWordGo names r
  | _ :: r => backslashWordGo names r

/-- The relation / math Unicode symbols of `isLatexLike`. -/
def relSymbols : List Char :=
  ['≤', '≥', '≈', '≃', '≅', '≡', '≠', '→', '↦', '↔', '⇒', '⇔', '∝', '∞', '∑', '∫',
   '√', '∂', '∇', '∈', '∉', '⊂', '⊆', '⊃', '⊇', '∪', '∩', '∀', '∃']

/-- Named function tokens of `isLatexLike` (case-sensitive, `\b` on both sides). -/
def funcTokens : List (List Char) :=
  ["sin".data, "cos".data, "tan".data, "cot".data, "sec".data, "csc".data, "log".data,
   "ln".data, "exp".data, "min".data, "max".data, "arg".data, "min".data, "max".data,
   "sup".data, "inf".data, "det".data, "rank".data, "tr".data, "trace".data, "diag".data,
   "span".data, "null".data, "range".data, "im".data, "ker".data, "dim".data]

/-- Font macro names. -/
def fontMacros : List (List Char) :=
  ["mathbb".data, "mathcal".data, "mathrm".data, "mathbf".data, "mathit".data,
   "mathtt".data, "boldsymbol".data, "bm".data]

/-- Greek-letter and calculus macro names. -/
def greekMacros : List (List Char) :=
  ["alpha".data, "beta".data, "gamma".data, "delta".data, "epsilon".data,
   "varepsilon".data, "zeta".data, "eta".data, "theta".data, "vartheta".data,
   "iota".data, "kappa".data, "lambda".data, "mu".data, "nu".data, "xi".data,
   "pi".data, "varpi".data, "rho".data, "sigma".data, "varsigma".data, "tau".data,
   "upsilon".data, "phi".data, "varphi".data, "chi".data, "psi".data, "omega".data,
   "partial".data, "nabla".data, "sum".data, "int".data, "prod".data, "frac".data,
   "sqrt".data, "binom".data, "cdot".data, "times".data, "div".data, "over".data,
   "lim".data, "to".data, "infty".data]

/-- Environment names recognized by the `\begin` fragment of `isLatexLike`
(the wrapper's list plus `gather` and `split`). -/
def envNamesWide : List (List Char) :=
  envNames ++ ["gather".data, "split".data]

/-- `\\begin\x7b(…)\x7d` occurs somewhere. -/
def hasEnvBegin : List Char → Bool
  | [] => false
  | s@(_ :: r) =>
      (leadsWith "\\begin\x7b".data s &&
        envNamesWide.any (fun e => leadsWith (e ++ ['\x7d']) (s.drop 7))) ||
      hasEnvBegin r

/-- `\[[^[\]]+,[^[\]]+\]` occurs somewhere: a bracket pair, no nested brackets,
with a comma strictly inside the content. -/
def hasListPair : List Char → Bool
  | [] => false
  | '[' :: r =>
      (let content := r.takeWhile (fun c => c != '[' && c != ']')
       (match r.drop content.length with
        | ']' :: _ => ((content.drop 1).dropLast).any (· == ',')
        | _ => false)) ||
      hasListPair r
  | _ :: r => hasListPair r

/-- `[A-Za-z]\s*[_^]\s*[0-9A-Za-z]` occurs somewhere. -/
def hasSubSup : List Char → Bool
  | [] => false
  | c :: r =>
      (c.isAlpha &&
        (match r.dropWhile isJsWs with
         | d :: r1 =>
             (d == '_' || d == '^') &&
               (match r1.dropWhile isJsWs with
                | e :: _ => e.isAlphanum
                | [] => false)
         | [] => false)) ||
      hasSubSup r

/-- `[A-Za-z]\s*\([^)]*\)` occurs somewhere. -/
def hasFuncCall : List Char → Bool
  | [] => false
  | c :: r =>
      (c.isAlpha &&
        (match r.dropWhile isJsWs with
         | '(' :: r1 => r1.any (· == ')')
         | _ => false)) ||
      hasFuncCall r

/-- `isLatexLike` of the source: the ordered chain of `if (…) return true`
tests.  (The tests that require a backslash are subsumed by the very first
one, exactly as in the source.) -/
def isLatexLike (s : List Char) : Bool :=
  s.any (· == '\\') ||
  s.any (fun c => c == '=' || c == '_' || c == '^') ||
  (s.any (fun c => c == '+' || c == '-' || c == '*' || c == '/') && s.any Char.isAlphanum) ||
  (s.any (fun c => c == '⟨' || c == '⟩') || hasNormBars s) ||
  s.any (relSymbols.contains ·) ||
  wordTokenGo funcTokens none s ||
  backslashMacroGo fontMacros braceAlnumGroup s ||
  backslashMacroGo ["text".data] braceAnyGroup s ||
  backslashMacroGo ["operatorname".data] braceAnyGroup s ||
  backslashWordGo greekMacros s ||
  hasEnvBegin s ||
  (hasListPair s && s.any Char.isAlphanum) ||
  hasSubSup s ||
  hasFuncCall s

/-- Mathy-context vocabulary (`contextIsMathy`, case-insensitive). -/
def mathyWords : List (List Char) :=
  ["ode".data, "pde".data, "fourier".data, "taylor".data, "polynomial".data,
   "series".data, "equation".data, "matrix".data, "vector".data, "operator".data,
   "rank".data, "dimension".data, "basis".data, "eigen".data, "svd".data,
   "distribution".data, "probability".data, "variance".data, "expectation".data,
   "gradient".data, "divergence".data, "curl".data]

/-- Ordinal / positional words of `contextIsMathy`'s third test. -/
def ordinalWords : List (List Char) :=
  ["th".data, "st".data, "nd".data, "rd".data, "dim".data, "degree".data,
   "term".data, "mode".data, "harmonic".data, "eigen".data, "component".data]

/-- `contextIsMathy` of the source. -/
def contextIsMathy (before after : List Char) : Bool :=
  let window := before ++ ' ' :: after
  let w := window.drop (window.length - 120)
  (w.any (fun c => c == '\\' || c == '=' || c == '_' || c == '^' ||
      (0x2200 ≤ c.toNat && c.toNat ≤ 0x22FF))) ||
  wordTokenGoCI mathyWords none w ||
  (let a := after.dropWhile isJsWs
   ((match a with
     | '-' :: a2 =>
         let a3 := (a2.dropWhile isJsWs)
         leadsWithCI "order".data a3 && noWordHead (a3.drop 5)
     | _ => false) ||
    (leadsWithCI "order".data a && noWordHead (a.drop 5)) ||
    ordinalWords.any (fun wd => leadsWithCI wd a && noWordHead (a.drop wd.length))))

/-! ### `isSafeParens` / `isSafeBrackets` -/

/-- Punctuation class `[,\.;:!?\u2013\u2014-]` of the enumeration pattern. -/
def isEnumPunct (c : Char) : Bool :=
  c == ',' || c == '.' || c == ';' || c == ':' || c == '!' || c == '?' ||
  c == '\u2013' || c == '\u2014' || c == '-'

/-- `(?:$|[,\.;:!?\u2013\u2014-]\s)`. -/
def enumTail3 : List Char → Bool
  | [] => true
  | c :: d :: _ => isEnumPunct c && isJsWs d
  | _ :: [] => false

/-- `\s*` then `enumTail3` (all split points). -/
def enumTail2 : List Char → Bool
  | [] => enumTail3 []
  | s@(c :: r) => enumTail3 s || (isJsWs c && enumTail2 r)

/-- `\)?` then `enumTail2`. -/
def enumTail1 : List Char → Bool
  | ')' :: r => enumTail2 r || enumTail2 (')' :: r)
  | s => enumTail2 s

/-- Roman-numeral characters (case-insensitive). -/
def isRomanChar (c : Char) : Bool :=
  let l := c.toLower
  l == 'i' || l == 'v' || l == 'x' || l == 'l' || l == 'c' || l == 'd' || l == 'm'

/-- `[ivxlcdm]+` then the tail (all split points, one or more characters). -/
def romanGo : List Char → Bool
  | [] => false
  | c :: r => isRomanChar c && (enumTail1 r || romanGo r)

/-- `\d+` then the tail. -/
def digitsGo : List Char → Bool
  | [] => false
  | c :: r => c.isDigit && (enumTail1 r || digitsGo r)

/-- The enumeration pattern `/^(?:[a-z]|[ivxlcdm]+|\d+)\)?\s*(?:$|[,\.;:!?\u2013\u2014-]\s)/i`. -/
def enumPattern (content : List Char) : Bool :=
  (match content with
   | c :: r => c.isAlpha && enumTail1 r
   | [] => false) ||
  romanGo content || digitsGo content

/-- Leading reference words `/^(?:note|notes|see|ref|fig|figure|table|section|chapter|appendix)\b/i`. -/
def startsRefWord (content : List Char) : Bool :=
  ["note".data, "notes".data, "see".data, "ref".data, "fig".data, "figure".data,
   "table".data, "section".data, "chapter".data, "appendix".data].any
    (fun wd => leadsWithCI wd content && noWordHead (content.drop wd.length))

/-- `isSafeParens` of the source. -/
def isSafeParens (content before after : List Char) (_mtch : List Char) : Bool :=
  if enumPattern content then false
  else if startsRefWord content then false
  else if isLatexLike content then true
  else
    (match content with
     | [c] => c.isAlpha && contextIsMathy before after
     | _ => false)

/-- The footnote test `/^\^[^\]]+$/`. -/
def isFootnoteRef (content : List Char) : Bool :=
  match content with
  | '^' :: rest => !rest.isEmpty && rest.all (· != ']')
  | _ => false

/-- The image-starter test `/^\s*!\s*[^[]/` on the before-context. -/
def isImageStarter (before : List Char) : Bool :=
  match before.dropWhile isJsWs with
  | '!' :: r =>
      (match r with
       | c :: _ => c != '['
       | [] => false)
  | _ => false

/-- `^!?` then the anchored Markdown-link shape. -/
def isLinkOrImage (full : List Char) : Bool :=
  match full with
  | '!' :: r => isMarkdownLink r
  | _ => isMarkdownLink full

/-- `isSafeBrackets` of the source. -/
def isSafeBrackets (content before after : List Char) (mtch : List Char) : Bool :=
  if isLinkOrImage (before ++ mtch ++ after) then false
  else if isFootnoteRef content then false
  else if isImageStarter before then false
  else isLatexLike content

/-! ### `convertOutermostInline` -/

/-- Fueled state machine of `convertOutermostInline`.  `bef` is the reversed
original text already scanned (for the 60-character before-context); the state
is `none` outside a span and `some (buf, depth)` inside one, with `buf` the
reversed span so far. -/
def coGo (openCh closeCh : Char)
    (guard : List Char → List Char → List Char → List Char → Bool) :
    Nat → Option (List Char × Nat) → List Char → List Char → List Char
  | 0, st, _, s =>
      (match st with
       | some (buf, _) => buf.reverse ++ s
       | none => s)
  | _ + 1, st, _, [] =>
      (match st with
       | some (buf, _) => buf.reverse
       | none => [])
  | f + 1, none, bef, c :: r =>
      if c == openCh then coGo openCh closeCh guard f (some ([c], 1)) bef r
      else c :: coGo openCh closeCh guard f none (c :: bef) r
  | f + 1, some (buf, depth), bef, c :: r =>
      if c == openCh then coGo openCh closeCh guard f (some (c :: buf, depth + 1)) bef r
      else if c == closeCh then
        if depth == 1 then
          let original := (c :: buf).reverse
          let inner := (original.drop 1).dropLast
          let trm := jsTrim inner
          let beforeCtx := (bef.take 60).reverse
          let afterCtx := r.take 60
          let bef' := (c :: buf) ++ bef
          if guard trm beforeCtx afterCtx original then
            '$' :: (trm ++ '$' :: coGo openCh closeCh guard f none bef' r)
          else original ++ coGo openCh closeCh guard f none bef' r
        else coGo openCh closeCh guard f (some (c :: buf, depth - 1)) bef r
      else coGo openCh closeCh guard f (some (c :: buf, depth)) bef r

/-- `convertOutermostInline` of the source. -/
def convertOutermostInline (text : List Char) (openCh closeCh : Char)
    (guard : List Char → List Char → List Char → List Char → Bool) : List Char :=
  coGo openCh closeCh guard (text.length + 1) none [] text

/-- `convertInlineDelims` of the source. -/
def convertInlineDelims (text : List Char) (opts : ConvertOptions) : List Char :=
  let t1 := if opts.plainParensAsDelimiters then
    convertOutermostInline text '(' ')' isSafeParens else text
  if opts.plainBracketsAsDelimiters then
    convertOutermostInline t1 '[' ']' isSafeBrackets else t1

/-! ### `wrapInlineBareLatex` -/

/-- Split at every line terminator (the line boundaries seen by the `m` flag). -/
def splitNl : List Char → List (List Char)
  | [] => [[]]
  | c :: r =>
      if isNlChar c then [] :: splitNl r
      else
        match splitNl r with
        | l :: ls => (c :: l) :: ls
        | [] => [[c]]

/-- Lookbehind `(?<!\$)` together with a `\b` for a word-character match start. -/
def prevNonWordNonDollar : Option Char → Bool
  | none => true
  | some p => !isWordChar p && p != '$'

/-- Negative lookahead `(?!\$)`. -/
def headNotDollar : List Char → Bool
  | '$' :: _ => false
  | _ => true

/-- Pass 1: `/(?<!\$)\b(\d+)\s*\^\s*\\circ\b(?!\$)/g` → `$N^\x7b\circ\x7d$`. -/
def w1Go : Nat → Option Char → List Char → List Char
  | 0, _, s => s
  | _ + 1, _, [] => []
  | f + 1, prev, c :: r =>
      let digits := (c :: r).takeWhile Char.isDigit
      let fail := c :: w1Go f (some c) r
      if prevNonWordNonDollar prev && !digits.isEmpty then
        match ((c :: r).drop digits.length).dropWhile isJsWs with
        | '^' :: r2 =>
            let r3 := r2.dropWhile isJsWs
            if leadsWith "\\circ".data r3 then
              let after := r3.drop 5
              if noWordHead after && headNotDollar after then
                '$' :: (digits ++
                  '^' :: '{' :: '\\' :: 'c' :: 'i' :: 'r' :: 'c' :: '}' :: '$' ::
                    w1Go f (some 'c') after)
              else fail
            else fail
        | _ => fail
      else fail

/-- Pass 2: `/(?<!\$)(\\sqrt\s*\{[^}]+\})(?!\$)/g` → `$…$`. -/
def w2Go : Nat → Option Char → List Char → List Char
  | 0, _, s => s
  | _ + 1, _, [] => []
  | f + 1, prev, c :: r =>
      let fail := c :: w2Go f (some c) r
      if (match prev with | some p => p != '$' | none => true) &&
          leadsWith "\\sqrt".data (c :: r) then
        let r1 := (c :: r).drop 5
        let ws := r1.takeWhile isJsWs
        match r1.drop ws.length with
        | '{' :: r3 =>
            let body := r3.takeWhile (· != '}')
            if !body.isEmpty then
              match r3.drop body.length with
              | '}' :: after =>
                  if headNotDollar after then
                    '$' :: ("\\sqrt".data ++ ws ++ '{' :: body ++ '}' :: '$' ::
                      w2Go f (some '}') after)
                  else fail
              | _ => fail
            else fail
        | _ => fail
      else fail

/-- Pass 3: `/(?<!\$)(\\frac\s*\{[^}]+\}\s*\{[^}]+\})(?!\$)/g` → `$…$`. -/
def w3Go : Nat → Option Char → List Char → List Char
  | 0, _, s => s
  | _ + 1, _, [] => []
  | f + 1, prev, c :: r =>
      let fail := c :: w3Go f (some c) r
      if (match prev with | some p => p != '$' | none => true) &&
          leadsWith "\\frac".data (c :: r) then
        let r1 := (c :: r).drop 5
        let ws1 := r1.takeWhile isJsWs
        match r1.drop ws1.length with
        | '{' :: r3 =>
            let body1 := r3.takeWhile (· != '}')
            if !body1.isEmpty then
              match r3.drop body1.length with
              | '}' :: r4 =>
                  let ws2 := r4.takeWhile isJsWs
                  match r4.drop ws2.length with
                  | '{' :: r5 =>
                      let body2 := r5.takeWhile (· != '}')
                      if !body2.isEmpty then
                        match r5.drop body2.length with
                        | '}' :: after =>
                            if headNotDollar after then
                              '$' :: ("\\frac".data ++ ws1 ++ '{' :: body1 ++ '}' :: ws2 ++
                                '{' :: body2 ++ '}' :: '$' :: w3Go f (some '}') after)
                            else fail
                        | _ => fail
                      else fail
                  | _ => fail
              | _ => fail
            else fail
        | _ => fail
      else fail

/-- The delimiter-ish class `[=+\-*/,:;.)]` of pass 4's lookahead. -/
def isDelimIsh (c : Char) : Bool :=
  c == '=' || c == '+' || c == '-' || c == '*' || c == '/' || c == ',' ||
  c == ':' || c == ';' || c == '.' || c == ')'

/-- Pass 4: `/(?<!\$)\b([A-Za-z])\s*([_^])\s*([A-Za-z0-9]+)\b(?=\s*[=+\-*/,:;.)]|$)(?!\$)/g`. -/
def w4Go : Nat → Option Char → List Char → List Char
  | 0, _, s => s
  | _ + 1, _, [] => []
  | f + 1, prev, c :: r =>
      let fail := c :: w4Go f (some c) r
      if prevNonWordNonDollar prev && c.isAlpha then
        match r.dropWhile isJsWs with
        | hat :: r1 =>
            if hat == '_' || hat == '^' then
              let r2 := r1.dropWhile isJsWs
              let idx := r2.takeWhile Char.isAlphanum
              if !idx.isEmpty then
                let after := r2.drop idx.length
                let lookOk := after.isEmpty ||
                  (match after.dropWhile isJsWs with
                   | d :: _ => isDelimIsh d
                   | [] => false)
                if noWordHead after && lookOk && headNotDollar after then
                  '$' :: c :: hat :: (idx ++ '$' ::
                    w4Go f (some (idx.getLastD hat)) after)
                else fail
              else fail
            else fail
        | [] => fail
      else fail

/-- `wrapInlineBareLatex` of the source: skipped entirely when some line of the
segment is a display-delimiter line, otherwise the four substitution passes in
order. -/
def wrapInlineBareLatex (segment : List Char) : List Char :=
  if (splitNl segment).any isDelimLine then segment
  else
    let s1 := w1Go (segment.length + 1) none segment
    let s2 := w2Go (s1.length + 1) none s1
    let s3 := w3Go (s2.length + 1) none s2
    w4Go (s3.length + 1) none s3

/-! ### The pipeline: `processMath`, `processOutsideCode`, `convertKatexToMathJax` -/

/-- `processMath` of the source: the two unconditional delimiter rewrites, the
bracket-line rewrite, the optional environment wrapper, the optional bare-line
promoter, then the inline stages applied outside display math. -/
def processMath (text : List Char) (opts : ConvertOptions) : List Char :=
  let t1 := replaceParenMath text
  let t2 := replaceBracketMath t1
  let t3 := replaceBracketLines t2
  let t4 := if opts.wrapMatrixEnvsInDisplayMath then wrapMatrixEnvs t3 else t3
  let t5 := if opts.wrapBareMathSingleLines then wrapBareMathLinesOutside t4 else t4
  let t6 := applyOutsideDisplay t5 (fun seg => convertInlineDelims seg opts)
  if opts.convertBareInlineLatex then applyOutsideDisplay t6 wrapInlineBareLatex else t6

/-- `processOutsideCode` of the source: URL chunks verbatim, the rest through
`processMath`. -/
def processOutsideCode (text : List Char) (opts : ConvertOptions) : List Char :=
  (((urlSplit text).map (fun p => if p.1 then p.2 else processMath p.2 opts)).flatten)

/-- The reassembled document before the final whitespace normalizer
(`segments.join("")` in the source). -/
def convertSegments (input : List Char) (opts : ConvertOptions) : List Char :=
  (((codeFenceSplit input).map
      (fun p => if p.1 then p.2 else processOutsideCode p.2 opts)).flatten)

/-- `convertKatexToMathJax` of the source. -/
def convertKatexToMathJax (input : List Char) (opts : ConvertOptions) : List Char :=
  let trimmed := jsTrim input
  if isRawUrl trimmed || isMarkdownLink trimmed || isCombined trimmed then input
  else trimEmptyLinesAroundBlockMath (convertSegments input opts)

/-! ## Generic lemmas about the embedding -/

theorem sliceL_append_drop (t : List Char) {a b : Nat} (h : a ≤ b) :
    sliceL t a b ++ t.drop b = t.drop a := by
  unfold sliceL
  have h2 : t.drop b = (t.drop a).drop (b - a) := by
    rw [List.drop_drop]
    congr 1
    omega
  rw [h2, List.take_append_drop]

theorem sliceL_to_end (t : List Char) (a : Nat) : sliceL t a t.length = t.drop a := by
  unfold sliceL
  exact List.take_of_length_le (by simp)

theorem lineEndGo_ge (text : List Char) : ∀ f pos, pos ≤ lineEndGo text f pos := by
  intro f
  induction f with
  | zero => intro pos; simp [lineEndGo]
  | succ f ih =>
      intro pos
      unfold lineEndGo
      cases h : text.get? pos with
      | none => simp
      | some c =>
          simp only
          split
          · exact Nat.le_refl _
          · exact Nat.le_trans (Nat.le_succ _) (ih (pos + 1))

theorem lineAdv_ge (text : List Char) (pos : Nat) : pos ≤ lineAdv text pos := by
  have h := lineEndGo_ge text text.length pos
  unfold lineAdv lineEnd
  dsimp only
  split <;> omega

theorem findDDGo_ge (text : List Char) :
    ∀ f j j', findDDGo text f j = some j' → j ≤ j' := by
  intro f
  induction f with
  | zero => intro j j' h; simp [findDDGo] at h
  | succ f ih =>
      intro j j' h
      unfold findDDGo at h
      by_cases hj : j + 1 < text.length
      · simp only [if_pos hj] at h
        split at h
        · cases h; exact Nat.le_refl _
        · exact Nat.le_trans (Nat.le_succ _) (ih (j + 1) j' h)
      · simp [if_neg hj] at h

theorem segLoop_join (text : List Char) :
    ∀ f i start inside, start ≤ i →
      ((segLoop text f i start inside).map MathChunk.chunk).flatten = text.drop start := by
  intro f
  induction f with
  | zero =>
      intro i start inside _
      simp only [segLoop]
      split
      · simp [sliceL_to_end]
      · simp only [List.map_nil, List.flatten_nil]
        exact (List.drop_eq_nil_of_le (by omega)).symm
  | succ f ih =>
      intro i start inside hsi
      unfold segLoop
      by_cases hlen : text.length ≤ i
      · simp only [if_pos hlen]
        split
        · simp [sliceL_to_end]
        · simp only [List.map_nil, List.flatten_nil]
          exact (List.drop_eq_nil_of_le (by omega)).symm
      · simp only [if_neg hlen]
        by_cases hdl : isDelimLineAt text i = true
        · simp only [if_pos hdl]
          have hadv : i ≤ lineAdv text i := lineAdv_ge text i
          have hrec := ih (lineAdv text i) (lineAdv text i) (!inside) (Nat.le_refl _)
          by_cases hst : start < i
          · simp only [if_pos hst, List.map_append, List.map_cons, List.map_nil,
              List.flatten_append, List.flatten_cons, List.flatten_nil, List.append_nil,
              List.nil_append, List.append_assoc, hrec]
            rw [sliceL_append_drop text hadv, sliceL_append_drop text (Nat.le_of_lt hst)]
          · have : start = i := Nat.le_antisymm hsi (Nat.le_of_not_lt hst)
            subst this
            simp only [if_neg hst, List.map_append, List.map_cons, List.map_nil,
              List.flatten_append, List.flatten_cons, List.flatten_nil, List.append_nil,
              List.nil_append, List.append_assoc, hrec]
            rw [sliceL_append_drop text hadv]
        · simp only [if_neg hdl]
          by_cases hdd : (text.get? i = some '$' ∧ text.get? (i + 1) = some '$')
          · simp only [if_pos hdd]
            cases hfind : findDDGo text text.length (i + 2) with
            | none =>
                by_cases hst : start < i
                · simp only [hfind, if_pos hst, List.map_append, List.map_cons, List.map_nil,
                    List.flatten_append, List.flatten_cons, List.flatten_nil, List.append_nil,
                    List.nil_append, List.append_assoc, sliceL_to_end]
                  rw [sliceL_append_drop text (Nat.le_of_lt hst)]
                · have : start = i := Nat.le_antisymm hsi (Nat.le_of_not_lt hst)
                  subst this
                  simp only [hfind, if_neg hst, List.map_append, List.map_cons, List.map_nil,
                    List.flatten_append, List.flatten_cons, List.flatten_nil, List.append_nil,
                    List.nil_append, sliceL_to_end]
            | some j =>
                have hj : i + 2 ≤ j := findDDGo_ge text text.length (i + 2) j hfind
                have hij : i ≤ j + 2 := by omega
                have hrec := ih (j + 2) (j + 2) inside (Nat.le_refl _)
                by_cases hst : start < i
                · simp only [hfind, if_pos hst, List.map_append, List.map_cons, List.map_nil,
                    List.flatten_append, List.flatten_cons, List.flatten_nil, List.append_nil,
                    List.nil_append, List.append_assoc, hrec]
                  rw [sliceL_append_drop text hij, sliceL_append_drop text (Nat.le_of_lt hst)]
                · have : start = i := Nat.le_antisymm hsi (Nat.le_of_not_lt hst)
                  subst this
                  simp only [hfind, if_neg hst, List.map_append, List.map_cons, List.map_nil,
                    List.flatten_append, List.flatten_cons, List.flatten_nil, List.append_nil,
                    List.nil_append, List.append_assoc, hrec]
                  rw [sliceL_append_drop text hij]
          · simp only [if_neg hdd]
            exact ih (i + 1) start inside (Nat.le_trans hsi (Nat.le_succ _))

theorem segment_join (t : List Char) :
    ((segmentByDisplayMath t).map MathChunk.chunk).flatten = t := by
  unfold segmentByDisplayMath
  simpa using segLoop_join t (t.length + 1) 0 0 false (Nat.le_refl 0)

theorem applyOutsideDisplay_id (t : List Char) :
    applyOutsideDisplay t (fun s => s) = t := by
  unfold applyOutsideDisplay
  simpa [ite_self] using segment_join t

theorem mem_of_leadsWith : ∀ {pat s : List Char}, leadsWith pat s = true →
    ∀ {c : Char}, c ∈ pat → c ∈ s := by
  intro pat
  induction pat with
  | nil => intro s _ c hc; simp at hc
  | cons p ps ih =>
      intro s h c hc
      cases s with
      | nil => simp [leadsWith] at h
      | cons d cs =>
          simp only [leadsWith, Bool.and_eq_true, beq_iff_eq] at h
          rcases List.mem_cons.mp hc with hcp | hcp
          · subst hcp; rw [h.1]; exact List.mem_cons_self _ _
          · exact List.mem_cons_of_mem _ (ih h.2 hcp)

theorem mem_of_dropWhile {p : Char → Bool} {s : List Char} {c : Char}
    (h : c ∈ s.dropWhile p) : c ∈ s :=
  (List.dropWhile_sublist p).subset h

theorem mem_of_takeWhile {p : Char → Bool} {s : List Char} {c : Char}
    (h : c ∈ s.takeWhile p) : c ∈ s :=
  (List.takeWhile_sublist p).subset h

theorem mem_of_drop {n : Nat} {s : List Char} {c : Char} (h : c ∈ s.drop n) : c ∈ s :=
  (List.drop_sublist n s).subset h

theorem mem_of_take {n : Nat} {s : List Char} {c : Char} (h : c ∈ s.take n) : c ∈ s :=
  (List.take_sublist n s).subset h

theorem mem_of_tail {s : List Char} {c : Char} (h : c ∈ s.tail) : c ∈ s :=
  (List.tail_sublist s).subset h

theorem mem_of_jsTrim {s : List Char} {c : Char} (h : c ∈ jsTrim s) : c ∈ s := by
  unfold jsTrim at h
  rw [List.mem_reverse] at h
  exact mem_of_dropWhile (List.mem_reverse.mp (mem_of_dropWhile h))


theorem rpGo_id : ∀ f (s : List Char), '\\' ∉ s → rpGo f s = s := by
  intro f
  induction f with
  | zero => intro s _; rfl
  | succ f ih =>
      intro s h
      unfold rpGo
      split
      · omega
      · rfl
      · exact absurd (List.mem_cons_self _ _) h
      · rename_i s0 fuel2 c rest hnc hfe
        have h2 : fuel2 = f := by omega
        subst h2
        rw [ih rest (fun hm => h (List.mem_cons_of_mem _ hm))]

theorem rbGo_id : ∀ f (s : List Char), '\\' ∉ s → rbGo f s = s := by
  intro f
  induction f with
  | zero => intro s _; rfl
  | succ f ih =>
      intro s h
      unfold rbGo
      split
      · omega
      · rfl
      · exact absurd (List.mem_cons_self _ _) h
      · rename_i s0 fuel2 c rest hnc hfe
        have h2 : fuel2 = f := by omega
        subst h2
        rw [ih rest (fun hm => h (List.mem_cons_of_mem _ hm))]

theorem replaceParenMath_id {s : List Char} (h : '\\' ∉ s) : replaceParenMath s = s :=
  rpGo_id _ s h

theorem replaceBracketMath_id {s : List Char} (h : '\\' ∉ s) : replaceBracketMath s = s :=
  rbGo_id _ s h

theorem matchBracketLine_none_nl {s : List Char} (h : '\n' ∉ s) :
    matchBracketLine s = none := by
  unfold matchBracketLine
  dsimp only
  split
  · rename_i r heq
    split
    · rename_i body heq2
      exfalso
      apply h
      have h1 : '\n' ∈ r.dropWhile isSpaceTab := by rw [heq2]; exact List.mem_cons_self _ _
      have h2 : '\n' ∈ ('[' :: r) := List.mem_cons_of_mem _ (mem_of_dropWhile h1)
      rw [← heq] at h2
      exact mem_of_dropWhile h2
    · rfl
  · rfl

theorem matchBracketLine_none_lb {s : List Char} (h : '[' ∉ s) :
    matchBracketLine s = none := by
  unfold matchBracketLine
  dsimp only
  split
  · rename_i r heq
    exfalso
    apply h
    have h2 : '[' ∈ ('[' :: r) := List.mem_cons_self _ _
    rw [← heq] at h2
    exact mem_of_dropWhile h2
  · rfl

theorem rblGo_id_nl : ∀ f (s : List Char), '\n' ∉ s → rblGo f s = s := by
  intro f
  induction f with
  | zero => intro s _; rfl
  | succ f ih =>
      intro s h
      unfold rblGo
      split
      · omega
      · rfl
      · exact absurd (List.mem_cons_self _ _) h
      · rename_i s0 fuel2 c rest hnc hfe
        have h2 : fuel2 = f := by omega
        subst h2
        rw [ih rest (fun hm => h (List.mem_cons_of_mem _ hm))]

theorem rblGo_id_lb : ∀ f (s : List Char), '[' ∉ s → rblGo f s = s := by
  intro f
  induction f with
  | zero => intro s _; rfl
  | succ f ih =>
      intro s h
      unfold rblGo
      split
      · omega
      · rfl
      · rename_i rest hfe
        rw [matchBracketLine_none_lb (fun hm => h (List.mem_cons_of_mem _ hm))]
        have h2 : _ = f := Nat.succ.inj hfe.symm
        subst h2
        rw [ih rest (fun hm => h (List.mem_cons_of_mem _ hm))]
      · rename_i s0 fuel2 c rest hnc hfe
        have h2 : fuel2 = f := by omega
        subst h2
        rw [ih rest (fun hm => h (List.mem_cons_of_mem _ hm))]

theorem replaceBracketLines_id_nl {s : List Char} (h : '\n' ∉ s) :
    replaceBracketLines s = s := by
  unfold replaceBracketLines
  rw [matchBracketLine_none_nl h]
  exact rblGo_id_nl _ s h

theorem replaceBracketLines_id_lb {s : List Char} (h : '[' ∉ s) :
    replaceBracketLines s = s := by
  unfold replaceBracketLines
  rw [matchBracketLine_none_lb h]
  exact rblGo_id_lb _ s h

theorem parseEnvBegin_none {s : List Char} (h : '\\' ∉ s) : parseEnvBegin s = none := by
  unfold parseEnvBegin
  rw [if_neg]
  intro hl
  exact h (mem_of_leadsWith hl (by decide))

theorem matchEnvAt_none {s : List Char} (h : '\\' ∉ s) : matchEnvAt s = none := by
  unfold matchEnvAt
  dsimp only
  rw [parseEnvBegin_none (fun hm => h (mem_of_drop hm))]

theorem wmGo_id : ∀ f (s : List Char), '\\' ∉ s → wmGo f s = s := by
  intro f
  induction f with
  | zero => intro s _; rfl
  | succ f ih =>
      intro s h
      unfold wmGo
      split
      · omega
      · rfl
      · rename_i rest hfe
        rw [matchEnvAt_none (fun hm => h (List.mem_cons_of_mem _ hm))]
        have h2 : _ = f := Nat.succ.inj hfe.symm
        subst h2
        rw [ih rest (fun hm => h (List.mem_cons_of_mem _ hm))]
      · rename_i s0 fuel2 c rest hnc hfe
        have h2 : fuel2 = f := by omega
        subst h2
        rw [ih rest (fun hm => h (List.mem_cons_of_mem _ hm))]

theorem wrapMatrixEnvs_id {s : List Char} (h : '\\' ∉ s) : wrapMatrixEnvs s = s := by
  unfold wrapMatrixEnvs
  rw [matchEnvAt_none h]
  exact wmGo_id _ s h

theorem matchBlankThenDD_none_dollar {s : List Char} (h : '$' ∉ s) :
    matchBlankThenDD s = none := by
  unfold matchBlankThenDD
  dsimp only
  split
  · rename_i r heq
    rw [if_neg]
    intro hl
    apply h
    have h1 : '$' ∈ r.dropWhile isSpaceTab := mem_of_leadsWith hl (by decide)
    have h2 : '$' ∈ ('\n' :: r) := List.mem_cons_of_mem _ (mem_of_dropWhile h1)
    rw [← heq] at h2
    exact mem_of_dropWhile h2
  · rfl

theorem matchBlankThenDD_none_nl {s : List Char} (h : '\n' ∉ s) :
    matchBlankThenDD s = none := by
  unfold matchBlankThenDD
  dsimp only
  split
  · rename_i r heq
    exfalso
    apply h
    have h2 : '\n' ∈ ('\n' :: r) := List.mem_cons_self _ _
    rw [← heq] at h2
    exact mem_of_dropWhile h2
  · rfl

theorem tbGo_id_dollar : ∀ f (s : List Char), '$' ∉ s → tbGo f s = s := by
  intro f
  induction f with
  | zero => intro s _; rfl
  | succ f ih =>
      intro s h
      unfold tbGo
      split
      · omega
      · rfl
      · rename_i rest hfe
        rw [matchBlankThenDD_none_dollar (fun hm => h (List.mem_cons_of_mem _ hm))]
        have h2 : _ = f := Nat.succ.inj hfe.symm
        subst h2
        rw [ih rest (fun hm => h (List.mem_cons_of_mem _ hm))]
      · rename_i s0 fuel2 c rest hnc hfe
        have h2 : fuel2 = f := by omega
        subst h2
        rw [ih rest (fun hm => h (List.mem_cons_of_mem _ hm))]

theorem tbGo_id_nl : ∀ f (s : List Char), '\n' ∉ s → tbGo f s = s := by
  intro f
  induction f with
  | zero => intro s _; rfl
  | succ f ih =>
      intro s h
      unfold tbGo
      split
      · omega
      · rfl
      · exact absurd (List.mem_cons_self _ _) h
      · rename_i s0 fuel2 c rest hnc hfe
        have h2 : fuel2 = f := by omega
        subst h2
        rw [ih rest (fun hm => h (List.mem_cons_of_mem _ hm))]

theorem trimBeforeDD_id_dollar {s : List Char} (h : '$' ∉ s) : trimBeforeDD s = s := by
  unfold trimBeforeDD
  rw [matchBlankThenDD_none_dollar h]
  exact tbGo_id_dollar _ s h

theorem trimBeforeDD_id_nl {s : List Char} (h : '\n' ∉ s) : trimBeforeDD s = s := by
  unfold trimBeforeDD
  rw [matchBlankThenDD_none_nl h]
  exact tbGo_id_nl _ s h

theorem taGo_id_dollar : ∀ f (p q : Option Char) (s : List Char), '$' ∉ s →
    (p ≠ some '$' ∨ q ≠ some '$') → taGo f p q s = s := by
  intro f
  induction f with
  | zero => intro p q s _ _; rfl
  | succ f ih =>
      intro p q s h hpq
      cases s with
      | nil => rfl
      | cons c rest =>
          have hcond : ¬(p = some '$' ∧ q = some '$' ∧ c = '\n') := by
            rintro ⟨hp, hq, _⟩
            rcases hpq with hx | hx
            · exact hx hp
            · exact hx hq
          simp only [taGo]
          rw [if_neg hcond]
          have hq2 : (some c : Option Char) ≠ some '$' := by
            intro hc
            rw [Option.some.injEq] at hc
            exact h (hc ▸ List.mem_cons_self _ _)
          rw [ih q (some c) rest (fun hm => h (List.mem_cons_of_mem _ hm)) (Or.inr hq2)]

theorem taGo_id_nl : ∀ f (p q : Option Char) (s : List Char), '\n' ∉ s →
    taGo f p q s = s := by
  intro f
  induction f with
  | zero => intro p q s _; rfl
  | succ f ih =>
      intro p q s h
      cases s with
      | nil => rfl
      | cons c rest =>
          have hcond : ¬(p = some '$' ∧ q = some '$' ∧ c = '\n') := by
            rintro ⟨_, _, hc⟩
            exact h (hc ▸ List.mem_cons_self _ _)
          simp only [taGo]
          rw [if_neg hcond]
          rw [ih q (some c) rest (fun hm => h (List.mem_cons_of_mem _ hm))]
theorem trimAfterDD_id_dollar {s : List Char} (h : '$' ∉ s) : trimAfterDD s = s :=
  taGo_id_dollar _ none none s h (Or.inl (by simp))

theorem trimAfterDD_id_nl {s : List Char} (h : '\n' ∉ s) : trimAfterDD s = s :=
  taGo_id_nl _ none none s h

theorem trimEmpty_id_dollar {s : List Char} (h : '$' ∉ s) :
    trimEmptyLinesAroundBlockMath s = s := by
  unfold trimEmptyLinesAroundBlockMath
  rw [trimBeforeDD_id_dollar h, trimAfterDD_id_dollar h]

theorem trimEmpty_id_nl {s : List Char} (h : '\n' ∉ s) :
    trimEmptyLinesAroundBlockMath s = s := by
  unfold trimEmptyLinesAroundBlockMath
  rw [trimBeforeDD_id_nl h, trimAfterDD_id_nl h]

theorem cfGo_prose : ∀ f (acc s : List Char), '`' ∉ s →
    cfGo f acc s = flushProse (acc.reverse ++ s) := by
  intro f
  induction f with
  | zero => intro acc s _; rfl
  | succ f ih =>
      intro acc s h
      cases s with
      | nil => simp only [cfGo, List.append_nil]
      | cons c rest =>
          have hl : ¬(leadsWith "```".data (c :: rest) = true) := by
            intro hl
            exact h (mem_of_leadsWith hl (by decide))
          simp only [cfGo]
          rw [if_neg hl, ih (c :: acc) rest (fun hm => h (List.mem_cons_of_mem _ hm))]
          simp

theorem codeFenceSplit_prose {s : List Char} (h : '`' ∉ s) :
    codeFenceSplit s = flushProse s := by
  unfold codeFenceSplit
  rw [cfGo_prose _ [] s h]
  rfl

theorem httpPrefix_none {s : List Char} (h : ':' ∉ s) : httpPrefix s = none := by
  unfold httpPrefix
  rw [if_neg, if_neg]
  · intro hl
    exact h (mem_of_leadsWith hl (by decide))
  · intro hl
    exact h (mem_of_leadsWith hl (by decide))

theorem matchUrl_none {s : List Char} (h : ':' ∉ s) : matchUrl s = none := by
  unfold matchUrl
  rw [httpPrefix_none h]

theorem urlGo_prose : ∀ f (acc s : List Char), ':' ∉ s →
    urlGo f acc s = flushProse (acc.reverse ++ s) := by
  intro f
  induction f with
  | zero => intro acc s _; rfl
  | succ f ih =>
      intro acc s h
      cases s with
      | nil => simp only [urlGo, List.append_nil]
      | cons c rest =>
          simp only [urlGo]
          rw [matchUrl_none h, ih (c :: acc) rest (fun hm => h (List.mem_cons_of_mem _ hm))]
          simp

theorem urlSplit_prose {s : List Char} (h : ':' ∉ s) : urlSplit s = flushProse s := by
  unfold urlSplit
  rw [urlGo_prose _ [] s h]
  rfl

theorem isRawUrl_false {s : List Char} (h : ':' ∉ s) : isRawUrl s = false := by
  unfold isRawUrl
  rw [httpPrefix_none h]

theorem isCombined_false {s : List Char} (h : ':' ∉ s) : isCombined s = false := by
  unfold isCombined
  rw [httpPrefix_none h]

theorem isMarkdownLink_false {s : List Char} (h : '[' ∉ s) : isMarkdownLink s = false := by
  unfold isMarkdownLink
  split
  · exact absurd (List.mem_cons_self _ _) h
  · rfl

theorem convertInlineDelims_off {s : List Char} {opts : ConvertOptions}
    (h1 : opts.plainParensAsDelimiters = false) (h2 : opts.plainBracketsAsDelimiters = false) :
    convertInlineDelims s opts = s := by
  unfold convertInlineDelims
  rw [h1, h2]
  simp

theorem applyOutsideDisplay_off {t : List Char} {opts : ConvertOptions}
    (h1 : opts.plainParensAsDelimiters = false) (h2 : opts.plainBracketsAsDelimiters = false) :
    applyOutsideDisplay t (fun seg => convertInlineDelims seg opts) = t := by
  have hf : (fun seg => convertInlineDelims seg opts) = (fun s : List Char => s) :=
    funext (fun seg => convertInlineDelims_off h1 h2)
  rw [hf]
  exact applyOutsideDisplay_id t

theorem processMath_id {s : List Char} {opts : ConvertOptions}
    (h1 : '\\' ∉ s) (h2 : '[' ∉ s)
    (h5 : opts.wrapBareMathSingleLines = false)
    (h6 : opts.plainParensAsDelimiters = false)
    (h7 : opts.plainBracketsAsDelimiters = false)
    (h8 : opts.convertBareInlineLatex = false) :
    processMath s opts = s := by
  unfold processMath
  dsimp only
  rw [replaceParenMath_id h1, replaceBracketMath_id h1, replaceBracketLines_id_lb h2, h5, h8]
  simp only [if_false, Bool.false_eq_true]
  cases hw : opts.wrapMatrixEnvsInDisplayMath with
  | true => simp only [if_true]; rw [wrapMatrixEnvs_id h1, applyOutsideDisplay_off h6 h7]
  | false => simp only [Bool.false_eq_true, if_false]; rw [applyOutsideDisplay_off h6 h7]

theorem processOutsideCode_id {s : List Char} {opts : ConvertOptions}
    (hs : ':' ∉ s) (h1 : '\\' ∉ s) (h2 : '[' ∉ s)
    (h5 : opts.wrapBareMathSingleLines = false)
    (h6 : opts.plainParensAsDelimiters = false)
    (h7 : opts.plainBracketsAsDelimiters = false)
    (h8 : opts.convertBareInlineLatex = false) :
    processOutsideCode s opts = s := by
  unfold processOutsideCode
  rw [urlSplit_prose hs]
  unfold flushProse
  by_cases hnil : s.isEmpty
  · simp only [if_pos hnil]
    simpa using (List.isEmpty_iff.mp hnil).symm
  · simp only [if_neg hnil, List.map_cons, List.map_nil, List.flatten_cons, List.flatten_nil,
      List.append_nil, Bool.false_eq_true, if_false]
    exact processMath_id h1 h2 h5 h6 h7 h8

theorem convertSegments_id {s : List Char} {opts : ConvertOptions}
    (ht : '`' ∉ s) (hs : ':' ∉ s) (h1 : '\\' ∉ s) (h2 : '[' ∉ s)
    (h5 : opts.wrapBareMathSingleLines = false)
    (h6 : opts.plainParensAsDelimiters = false)
    (h7 : opts.plainBracketsAsDelimiters = false)
    (h8 : opts.convertBareInlineLatex = false) :
    convertSegments s opts = s := by
  unfold convertSegments
  rw [codeFenceSplit_prose ht]
  unfold flushProse
  by_cases hnil : s.isEmpty
  · simp only [if_pos hnil]
    simpa using (List.isEmpty_iff.mp hnil).symm
  · simp only [if_neg hnil, List.map_cons, List.map_nil, List.flatten_cons, List.flatten_nil,
      List.append_nil, Bool.false_eq_true, if_false]
    exact processOutsideCode_id hs h1 h2 h5 h6 h7 h8

theorem convert_fixed {s : List Char} {opts : ConvertOptions}
    (hd : '$' ∉ s) (hb : '\\' ∉ s) (hlb : '[' ∉ s) (ht : '`' ∉ s) (hc : ':' ∉ s)
    (h5 : opts.wrapBareMathSingleLines = false)
    (h6 : opts.plainParensAsDelimiters = false)
    (h7 : opts.plainBracketsAsDelimiters = false)
    (h8 : opts.convertBareInlineLatex = false) :
    convertKatexToMathJax s opts = s := by
  unfold convertKatexToMathJax
  dsimp only
  rw [isRawUrl_false (fun hm => hc (mem_of_jsTrim hm)),
    isMarkdownLink_false (fun hm => hlb (mem_of_jsTrim hm)),
    isCombined_false (fun hm => hc (mem_of_jsTrim hm))]
  simp only [Bool.or_self, Bool.or_false, Bool.false_eq_true, if_false]
  rw [convertSegments_id ht hc hb hlb h5 h6 h7 h8, trimEmpty_id_dollar hd]

theorem rpGo_nil : ∀ f, rpGo f [] = [] := by
  intro f; cases f <;> rfl

theorem findParenClose_concat : ∀ (X r : List Char), '\\' ∉ X → '\n' ∉ X → '\r' ∉ X →
    findParenClose (X ++ '\\' :: ')' :: r) = some (X, r) := by
  intro X
  induction X with
  | nil => intro r _ _ _; rfl
  | cons c X' ih =>
      intro r hb hn hr
      unfold findParenClose
      split
      · rename_i heq
        simp at heq
      · rename_i r2 heq
        rw [List.cons_append] at heq
        have hceq := (List.cons.injEq _ _ _ _).mp heq
        exact absurd (hceq.1 ▸ List.mem_cons_self _ _) hb
      · rename_i c2 r2 hnc heq
        rw [List.cons_append] at heq
        have hceq := (List.cons.injEq _ _ _ _).mp heq
        rw [if_neg]
        · rw [← hceq.2, ih r (fun hm => hb (List.mem_cons_of_mem _ hm))
            (fun hm => hn (List.mem_cons_of_mem _ hm))
            (fun hm => hr (List.mem_cons_of_mem _ hm))]
          rw [← hceq.1]
          simp
        · rw [← hceq.1]
          intro hnl
          unfold isNlChar at hnl
          simp only [Bool.or_eq_true, beq_iff_eq] at hnl
          rcases hnl with h | h
          · exact hn (h ▸ List.mem_cons_self _ _)
          · exact hr (h ▸ List.mem_cons_self _ _)

theorem replaceParenMath_concat {X : List Char} (hb : '\\' ∉ X) (hn : '\n' ∉ X)
    (hr : '\r' ∉ X) :
    replaceParenMath ('\\' :: '(' :: (X ++ ['\\', ')'])) = '$' :: (jsTrim X ++ ['$']) := by
  unfold replaceParenMath
  have hlen : ('\\' :: '(' :: (X ++ ['\\', ')'])).length = X.length + 4 := by simp
  rw [hlen]
  show rpGo (X.length + 4 + 1) ('\\' :: '(' :: (X ++ '\\' :: ')' :: [])) = _
  simp only [rpGo]
  rw [findParenClose_concat X [] hb hn hr]
  simp only [rpGo_nil]

theorem jsTrim_eq_self {c d : Char} {m : List Char} (hc : isJsWs c = false)
    (hd : isJsWs d = false) : jsTrim (c :: (m ++ [d])) = c :: (m ++ [d]) := by
  unfold jsTrim
  simp [List.dropWhile_cons, hc, hd]

theorem isMarkdownLink_head {c : Char} {l : List Char} (h : ¬c = '[') :
    isMarkdownLink (c :: l) = false := by
  unfold isMarkdownLink
  split
  · rename_i rest heq
    have := (List.cons.injEq _ _ _ _).mp heq
    exact absurd this.1 h
  · rfl

theorem convert_eval {s : List Char} {opts : ConvertOptions}
    (h1 : isRawUrl (jsTrim s) = false) (h2 : isMarkdownLink (jsTrim s) = false)
    (h3 : isCombined (jsTrim s) = false) :
    convertKatexToMathJax s opts = trimEmptyLinesAroundBlockMath (convertSegments s opts) := by
  unfold convertKatexToMathJax
  dsimp only
  rw [h1, h2, h3]
  simp

theorem convert_paren_span (X : List Char)
    (hb : '\\' ∉ X) (hn : '\n' ∉ X) (hr : '\r' ∉ X) (ht : '`' ∉ X) (hc : ':' ∉ X) :
    convertKatexToMathJax ('\\' :: '(' :: (X ++ ['\\', ')'])) defaultOpts =
      '$' :: (jsTrim X ++ ['$']) := by
  have hmem : ∀ a : Char, a ∈ ('\\' :: '(' :: (X ++ ['\\', ')'])) →
      a = '\\' ∨ a = '(' ∨ a = ')' ∨ a ∈ X := by
    intro a ha
    simp only [List.mem_cons, List.mem_append, List.mem_singleton] at ha
    tauto
  have hcI : ':' ∉ ('\\' :: '(' :: (X ++ ['\\', ')'])) := fun hm => by
    rcases hmem ':' hm with h | h | h | h
    · exact absurd h (by decide)
    · exact absurd h (by decide)
    · exact absurd h (by decide)
    · exact hc h
  have htI : '`' ∉ ('\\' :: '(' :: (X ++ ['\\', ')'])) := fun hm => by
    rcases hmem '`' hm with h | h | h | h
    · exact absurd h (by decide)
    · exact absurd h (by decide)
    · exact absurd h (by decide)
    · exact ht h
  have htrim : jsTrim ('\\' :: '(' :: (X ++ ['\\', ')'])) =
      '\\' :: '(' :: (X ++ ['\\', ')']) := by
    have hshape : '\\' :: '(' :: (X ++ ['\\', ')']) =
        '\\' :: (('(' :: (X ++ ['\\'])) ++ [')']) := by simp
    rw [hshape, jsTrim_eq_self (by decide) (by decide)]
  rw [convert_eval (isRawUrl_false (fun hm => hcI (mem_of_jsTrim hm)))
      (by rw [htrim]; exact isMarkdownLink_head (by decide))
      (isCombined_false (fun hm => hcI (mem_of_jsTrim hm)))]
  have hseg : convertSegments ('\\' :: '(' :: (X ++ ['\\', ')'])) defaultOpts =
      processOutsideCode ('\\' :: '(' :: (X ++ ['\\', ')'])) defaultOpts := by
    unfold convertSegments
    rw [codeFenceSplit_prose htI]
    simp [flushProse]
  have hurl : processOutsideCode ('\\' :: '(' :: (X ++ ['\\', ')'])) defaultOpts =
      processMath ('\\' :: '(' :: (X ++ ['\\', ')'])) defaultOpts := by
    unfold processOutsideCode
    rw [urlSplit_prose hcI]
    simp [flushProse]
  rw [hseg, hurl]
  have hmemR : ∀ a : Char, a ∈ ('$' :: (jsTrim X ++ ['$'])) → a = '$' ∨ a ∈ X := by
    intro a ha
    simp only [List.mem_cons, List.mem_append, List.mem_singleton] at ha
    rcases ha with h | h | h
    · exact Or.inl h
    · exact Or.inr (mem_of_jsTrim h)
    · simp at h
      exact Or.inl h
  have hbR : '\\' ∉ ('$' :: (jsTrim X ++ ['$'])) := fun hm => by
    rcases hmemR '\\' hm with h | h
    · exact absurd h (by decide)
    · exact hb h
  have hnR : '\n' ∉ ('$' :: (jsTrim X ++ ['$'])) := fun hm => by
    rcases hmemR '\n' hm with h | h
    · exact absurd h (by decide)
    · exact hn h
  unfold processMath
  dsimp only
  rw [replaceParenMath_concat hb hn hr, replaceBracketMath_id hbR,
    replaceBracketLines_id_nl hnR]
  simp only [show defaultOpts.wrapMatrixEnvsInDisplayMath = true from rfl,
    show defaultOpts.wrapBareMathSingleLines = false from rfl,
    show defaultOpts.convertBareInlineLatex = false from rfl,
    if_true, Bool.false_eq_true, if_false]
  rw [wrapMatrixEnvs_id hbR, applyOutsideDisplay_off rfl rfl]
  exact trimEmpty_id_nl hnR

/-! ## Claims -/

/-- C1: the claim as stated is false on the code.  In the input
`"$$\n\(x\)\n$$"` the text strictly between the pair of `$$` delimiter lines
is `\(x\)`, yet under default options the output is `"$$\n$x$\n$$"`: the
escaped-parenthesis rewrite of `processMath` runs on the whole text, display
regions included, so the between-text is rewritten. -/
theorem c1_counterexample :
    convertKatexToMathJax "$$\n\\(x\\)\n$$".data defaultOpts = "$$\n$x$\n$$".data ∧
    convertKatexToMathJax "$$\n\\(x\\)\n$$".data defaultOpts ≠ "$$\n\\(x\\)\n$$".data := by
  constructor
  · decide
  · decide

/-- C1 (amended): only the stages routed through `applyOutsideDisplay` (the
inline-delimiter conversion and the bare-token wrapper) are blocked from
display regions: every chunk marked `inside` by `segmentByDisplayMath` is
passed through verbatim — it reappears as a contiguous span of the stage's
output for an arbitrary transform.  The earlier unconditional rewrites and
the final trimming pass are not so restricted. -/
theorem c1_inside_chunks_survive_outside_stages (t : List Char)
    (f : List Char → List Char) (p : MathChunk)
    (hp : p ∈ segmentByDisplayMath t) (hi : p.inside = true) :
    p.chunk <:+: applyOutsideDisplay t f := by
  unfold applyOutsideDisplay
  have hm := List.mem_map_of_mem
    (fun q : MathChunk => if q.inside then q.chunk else f q.chunk) hp
  simp only [hi, if_true] at hm
  exact List.infix_of_mem_flatten hm

/-- C1 witness: the single inside chunk of `"$$x$$"` survives
`applyOutsideDisplay` with the erasing transform. -/
theorem c1_witness :
    (⟨true, "$$x$$".data⟩ : MathChunk) ∈ segmentByDisplayMath "$$x$$".data ∧
    "$$x$$".data <:+: applyOutsideDisplay "$$x$$".data (fun _ => []) :=
  ⟨by decide,
   c1_inside_chunks_survive_outside_stages "$$x$$".data (fun _ => [])
     ⟨true, "$$x$$".data⟩ (by decide) rfl⟩

/-- C2: evaluation at the failing input.  The input is one fenced code block
whose text contains a blank line right before a `$$`; the final
`trimEmptyLinesAroundBlockMath` pass runs over the reassembled document and
deletes that blank line inside the fence, so the fenced text is not
byte-identical in the output — contradicting the function's own contract of
being safe around code fences. -/
theorem c2_fence_not_byte_identical :
    convertKatexToMathJax "```\n\n$$\n```".data defaultOpts = "```\n$$\n```".data ∧
    "```\n\n$$\n```".data ≠ "```\n$$\n```".data := by
  constructor
  · decide
  · decide

/-- C3: the claim as stated is false: only `http://` and `https://` URLs are
guarded.  Under default options the `ftp://` URL span of `"ftp://a\(x\)b"`
(the span running up to the closing parenthesis, i.e. `ftp://a\(x\`) is
rewritten by the escaped-parenthesis stage and does not appear in the
output. -/
theorem c3_counterexample :
    convertKatexToMathJax "ftp://a\\(x\\)b".data defaultOpts = "ftp://a$x$b".data ∧
    ¬ ("ftp://a\\(x\\".data <:+: convertKatexToMathJax "ftp://a\\(x\\)b".data defaultOpts) := by
  constructor
  · decide
  · decide

/-- C3 (amended): `convertKatexToMathJax "https://example.com"` returns the
input unchanged for every option record, and every chunk the URL guard marks
as a URL (which requires an `http://` or `https://` scheme) is emitted
verbatim by `processOutsideCode`, excluded from the math stages; other
schemes enjoy no such protection. -/
theorem c3_url_guard :
    (∀ opts : ConvertOptions,
      convertKatexToMathJax "https://example.com".data opts = "https://example.com".data) ∧
    (∀ (text : List Char) (opts : ConvertOptions) (c : List Char),
      (true, c) ∈ urlSplit text → c <:+: processOutsideCode text opts) := by
  constructor
  · intro opts
    unfold convertKatexToMathJax
    dsimp only
    rw [if_pos]
    decide
  · intro text opts c hc
    unfold processOutsideCode
    have hm := List.mem_map_of_mem
      (fun p : Bool × List Char => if p.1 then p.2 else processMath p.2 opts) hc
    simp only [if_true] at hm
    exact List.infix_of_mem_flatten hm

/-- C3 witness: the whole-input short-circuit at the default options, and the
embedded `http://a` span of `"see http://a b"` surviving verbatim. -/
theorem c3_witness :
    convertKatexToMathJax "https://example.com".data defaultOpts = "https://example.com".data ∧
    "http://a".data <:+: processOutsideCode "see http://a b".data defaultOpts :=
  ⟨c3_url_guard.1 defaultOpts,
   c3_url_guard.2 "see http://a b".data defaultOpts "http://a".data (by decide)⟩

/-- C4: under default options an escaped-parenthesis span `\( X \)` (with `X`
free of backslashes, line terminators, backticks and colons, so that no other
stage interferes) is rewritten to `$trim(X)$` by the whole pipeline. -/
theorem c4_escaped_paren_conversion (X : List Char)
    (hb : '\\' ∉ X) (hn : '\n' ∉ X) (hr : '\r' ∉ X) (ht : '`' ∉ X) (hc : ':' ∉ X) :
    convertKatexToMathJax ('\\' :: '(' :: (X ++ ['\\', ')'])) defaultOpts =
      '$' :: (jsTrim X ++ ['$']) :=
  convert_paren_span X hb hn hr ht hc

/-- C4 witness: the spec's concrete example
`convert("\(a^2+b^2=c^2\)") = "$a^2+b^2=c^2$"`. -/
theorem c4_witness :
    convertKatexToMathJax ('\\' :: '(' :: ("a^2+b^2=c^2".data ++ ['\\', ')'])) defaultOpts =
      "$a^2+b^2=c^2$".data :=
  (c4_escaped_paren_conversion "a^2+b^2=c^2".data (by decide) (by decide) (by decide)
    (by decide) (by decide)).trans (by decide)

/-- C5: the claim as stated is false.  A `bmatrix` environment already inside
a `$$` display block is wrapped again (the environment regex performs no
inside-display check), producing nested delimiters instead of being left
unchanged. -/
theorem c5_counterexample :
    convertKatexToMathJax "$$\n\\begin{bmatrix}1\\end{bmatrix}\n$$".data defaultOpts =
      "$$\n$$\n\\begin{bmatrix}1\\end{bmatrix}\n$$\n$$".data ∧
    convertKatexToMathJax "$$\n\\begin{bmatrix}1\\end{bmatrix}\n$$".data defaultOpts ≠
      "$$\n\\begin{bmatrix}1\\end{bmatrix}\n$$".data := by
  constructor
  · decide
  · decide

/-- C5 (amended): with `wrapMatrixEnvsInDisplayMath = true` a
`\begin{ENV}…\end{ENV}` span at the start of a line is wrapped in a
`$$…$$` block with its content unchanged inside, regardless of whether it
already sits inside a display-math region: the spec's bare-environment
example is wrapped, and an environment between `$$` lines is wrapped the
same way. -/
theorem c5_env_wrapping :
    convertKatexToMathJax "\\begin{bmatrix}1 & 0 \\\\ 0 & 1\\end{bmatrix}".data defaultOpts =
      "$$\n\\begin{bmatrix}1 & 0 \\\\ 0 & 1\\end{bmatrix}\n$$".data ∧
    convertKatexToMathJax "$$\n\\begin{pmatrix}x\\end{pmatrix}\n$$".data defaultOpts =
      "$$\n$$\n\\begin{pmatrix}x\\end{pmatrix}\n$$\n$$".data := by
  constructor
  · decide
  · decide

/-- C6: with `plainParensAsDelimiters = true` the guard rejects
`"(see section 2)"` (inner text begins with the listed word `see`), and with
`plainBracketsAsDelimiters = true` the Markdown link `"[text](http://x)"` is
returned unchanged. -/
theorem c6_guarded_rejection :
    convertKatexToMathJax "(see section 2)".data
      { defaultOpts with plainParensAsDelimiters := true } = "(see section 2)".data ∧
    convertKatexToMathJax "[text](http://x)".data
      { defaultOpts with plainBracketsAsDelimiters := true } = "[text](http://x)".data := by
  constructor
  · decide
  · decide

/-- C7: evaluation of the bare-line promoter.  The lone mathy line is promoted
to a three-line display block and the plain sentence is untouched, but at the
failing input `"x=1\n$$\ny\n$$"` the mathy line `x=1` directly above the
existing `$$` opening line is still promoted — `wrapBareMathLinesOutside`
removes complete `$$…$$` spans before the adjacency check, producing exactly
the stacked delimiters the code's comment claims to prevent. -/
theorem c7_bare_line_promotion :
    convertKatexToMathJax "a^2 + b^2 = c^2".data
      { defaultOpts with wrapBareMathSingleLines := true } =
      "$$\na^2 + b^2 = c^2\n$$".data ∧
    convertKatexToMathJax "This is a sentence.".data
      { defaultOpts with wrapBareMathSingleLines := true } =
      "This is a sentence.".data ∧
    convertKatexToMathJax "x=1\n$$\ny\n$$".data
      { defaultOpts with wrapBareMathSingleLines := true } =
      "$$\nx=1\n$$\n$$\ny\n$$".data := by
  refine ⟨?_, ?_, ?_⟩
  · decide
  · decide
  · decide

/-- C8: the claim as stated is false.  After an unterminated delimiter-only
`$$` line the remainder is classified `inside := true`, not Outside: on
`"$$\nabc"` the segmenter returns the `$$` line and the remainder both as
inside chunks. -/
theorem c8_counterexample :
    segmentByDisplayMath "$$\nabc".data =
      [⟨true, "$$\n".data⟩, ⟨true, "abc".data⟩] := by
  decide

/-- C8 (amended): the fail-open behaviour holds only for the same-line form:
a `$$` that opens inline and never closes leaves the remainder Outside,
while an unterminated delimiter-only `$$` line flips the state and the
remainder is carried as InsideDisplay. -/
theorem c8_unterminated_delimiters :
    segmentByDisplayMath "a$$b".data =
      [⟨false, "a".data⟩, ⟨false, "$$b".data⟩] ∧
    segmentByDisplayMath "$$\nx".data =
      [⟨true, "$$\n".data⟩, ⟨true, "x".data⟩] := by
  constructor
  · decide
  · decide

/-- C9: the claim as stated is false.  The input `"\n\n\n$$\na\n$$"` contains
no math tokens at all, yet conversion is not idempotent under default
options: the blank-line normalizer deletes exactly one blank line before the
`$$` per call. -/
theorem c9_counterexample :
    convertKatexToMathJax
        (convertKatexToMathJax "\n\n\n$$\na\n$$".data defaultOpts) defaultOpts ≠
      convertKatexToMathJax "\n\n\n$$\na\n$$".data defaultOpts := by
  decide

/-- C9 (amended): conversion under default options is idempotent on inputs
containing none of the pipeline's trigger characters (`$`, `\`, `[`,
backtick, `:`); such inputs are fixed points of the conversion.  In general
idempotence fails (see the counterexample). -/
theorem c9_idempotent_on_trigger_free (X : List Char)
    (hd : '$' ∉ X) (hb : '\\' ∉ X) (hlb : '[' ∉ X) (ht : '`' ∉ X) (hc : ':' ∉ X) :
    convertKatexToMathJax (convertKatexToMathJax X defaultOpts) defaultOpts =
      convertKatexToMathJax X defaultOpts := by
  have hfix := convert_fixed hd hb hlb ht hc
    (show defaultOpts.wrapBareMathSingleLines = false from rfl) rfl rfl rfl
  rw [hfix]
  exact hfix

/-- C9 witness: an ordinary two-line prose input. -/
theorem c9_witness :
    convertKatexToMathJax (convertKatexToMathJax "hello\nworld".data defaultOpts) defaultOpts =
      convertKatexToMathJax "hello\nworld".data defaultOpts :=
  c9_idempotent_on_trigger_free "hello\nworld".data (by decide) (by decide) (by decide)
    (by decide) (by decide)

/-- C10: the chunks of `segmentByDisplayMath` partition the input — their
concatenation in order reproduces it exactly — and consequently
`applyOutsideDisplay` with the identity transform is the identity. -/
theorem c10_segmentation_partitions (t : List Char) :
    ((segmentByDisplayMath t).map MathChunk.chunk).flatten = t ∧
    applyOutsideDisplay t (fun s => s) = t :=
  ⟨segment_join t, applyOutsideDisplay_id t⟩
